import Mathlib

/-!
# Verification of the currency-api date-range aggregation service

Shallow embedding of `src/main.py` (a Flask wrapper around the
OpenExchangeRates time-series API) together with proofs about the claims
of its specification.

Modelling conventions:
* A calendar date `YYYY-MM-DD` string is represented by a `Date` record of
  three naturals; `parseDate` models `datetime.strptime(s, "%Y-%m-%d")`
  (CPython's `_strptime` matches `%Y` as exactly four digits and `%m`/`%d`
  as one or two digits, then the `datetime` constructor checks calendar
  validity).
* Python `datetime` comparison is chronological, i.e. lexicographic on
  `(year, month, day)` (`dateLe` / `dateLt`).
* The month-walking `while` loop of `get_months_between_dates` is written
  with an explicit fuel argument; the wrapper supplies exactly the number
  of iterations the loop performs on the (always month-valid) dates the
  handler passes in, so the two agree on every reachable input.
* Python dictionaries are modelled as association lists that keep
  insertion order (`dictSet` keeps the position of an existing key and
  appends a fresh key, exactly like CPython `dict.update`).
* `time.time()` is a natural number supplied by the caller; the in-memory
  `cache` dictionary is a function from keys to optional records.
* The upstream `requests.get` is an oracle `UReq → Except String UResponse`;
  a `.error` result models a raised transport exception, and a response
  whose `json` field is `.error` models `response.json()` raising.
-/

/-- A calendar date as carried by a `YYYY-MM-DD` string.  The fields are
the numbers `datetime.strptime` extracts; a `Date` value need not be a
valid calendar date (the source builds the bound `"...-31"` even for short
months, which we represent as `day = 31`). -/
structure Date where
  year : Nat
  month : Nat
  day : Nat
deriving DecidableEq, Repr

/-- Python's leap-year rule (`calendar.isleap`): divisible by 4 and not by
100, or divisible by 400. -/
def isLeapYear (y : Nat) : Bool :=
  (y % 4 == 0 && y % 100 != 0) || (y % 400 == 0)

/-- The true number of days of month `m` of year `y` (Gregorian), as
enforced by the `datetime` constructor. -/
def daysInMonth (y m : Nat) : Nat :=
  if m = 2 then (if isLeapYear y then 29 else 28)
  else if m = 4 ∨ m = 6 ∨ m = 9 ∨ m = 11 then 30
  else 31

/-- `d` is a real calendar date (what the `datetime` constructor accepts;
we do not need Python's upper bound `year ≤ 9999`, which the four-digit
`%Y` pattern enforces at the parsing stage). -/
def Date.valid (d : Date) : Prop :=
  1 ≤ d.year ∧ 1 ≤ d.month ∧ d.month ≤ 12 ∧ 1 ≤ d.day ∧ d.day ≤ daysInMonth d.year d.month

instance (d : Date) : Decidable d.valid := by
  unfold Date.valid; infer_instance

/-- Chronological (= lexicographic) order on dates, the order Python uses
to compare two `datetime` objects. -/
def dateLe (a b : Date) : Prop :=
  a.year < b.year ∨ (a.year = b.year ∧
    (a.month < b.month ∨ (a.month = b.month ∧ a.day ≤ b.day)))

instance (a b : Date) : Decidable (dateLe a b) := by
  unfold dateLe; infer_instance

/-- Strict chronological order on dates. -/
def dateLt (a b : Date) : Prop :=
  a.year < b.year ∨ (a.year = b.year ∧
    (a.month < b.month ∨ (a.month = b.month ∧ a.day < b.day)))

instance (a b : Date) : Decidable (dateLt a b) := by
  unfold dateLt; infer_instance

/-- Month counter used to reason about the month-by-month walk. -/
def monthIdx (d : Date) : Nat := d.year * 12 + d.month

/-- The `(year, month)` pair whose counter is `n` (for months `1..12`). -/
def ymOfIdx (n : Nat) : Nat × Nat := ((n - 1) / 12, (n - 1) % 12 + 1)

/-- Split a character list at every dash (the `-` separators of the
`%Y-%m-%d` pattern). -/
def splitDashes : List Char → List (List Char)
  | [] => [[]]
  | c :: rest =>
    if c = '-' then [] :: splitDashes rest
    else
      match splitDashes rest with
      | [] => [[c]]
      | g :: gs => (c :: g) :: gs

/-- Numeric value of a digit string (the value `int(s)` gives on an
all-digit string). -/
def natOfDigits (cs : List Char) : Nat :=
  cs.foldl (fun n c => n * 10 + (c.toNat - 48)) 0

/-- Model of `datetime.strptime(s, "%Y-%m-%d")`: four digits, dash, one or
two digits in `1..12`, dash, one or two digits, the day checked against
the true month length; `none` models the raised `ValueError`. -/
def parseDate (s : String) : Option Date :=
  match splitDashes s.data with
  | [ys, ms, ds] =>
    if ys.length = 4 && ys.all Char.isDigit
        && 1 ≤ ms.length && ms.length ≤ 2 && ms.all Char.isDigit
        && 1 ≤ ds.length && ds.length ≤ 2 && ds.all Char.isDigit then
      match natOfDigits ys, natOfDigits ms, natOfDigits ds with
      | y, m, d =>
        if 1 ≤ y && 1 ≤ m && m ≤ 12 && 1 ≤ d && d ≤ daysInMonth y m then
          some ⟨y, m, d⟩
        else none
    else none
  | _ => none

/-- `validate_date` of the source: the string parses as `%Y-%m-%d`. -/
def validate_date (s : String) : Bool :=
  (parseDate s).isSome

/-- The body of the `while` loop of `get_months_between_dates` with an
explicit fuel; the guard and the month increment are the source's. -/
def monthsLoop : Nat → Nat → Nat → Nat → Nat → List (Nat × Nat)
  | 0, _, _, _, _ => []
  | fuel + 1, cy, cm, ey, em =>
    if cy < ey ∨ (cy = ey ∧ cm ≤ em) then
      (cy, cm) ::
        (if cm = 12 then monthsLoop fuel (cy + 1) 1 ey em
         else monthsLoop fuel cy (cm + 1) ey em)
    else []

/-- `get_months_between_dates`: all `(year, month)` pairs from the start
month to the end month inclusive (the source renders them as `"YYYY-MM"`
strings; `get_month_range` immediately splits them back).  The fuel is the
exact number of loop iterations on month-valid inputs. -/
def get_months_between_dates (s e : Date) : List (Nat × Nat) :=
  monthsLoop (e.year * 12 + e.month + 1 - (s.year * 12 + s.month))
    s.year s.month e.year e.month

/-- `get_month_range`: the sub-range requested for month `(y, m)`.  The
source always uses day `01` for the start and the literal day `31` for the
end ("per API documentation"), then overrides the start with the request's
`start_date` in the first month and the end with `end_date` in the last
month. -/
def get_month_range (y m : Nat) (s e : Date) : Date × Date :=
  let month_start : Date := ⟨y, m, 1⟩
  let month_end : Date := ⟨y, m, 31⟩
  let month_start := if y = s.year ∧ m = s.month then s else month_start
  let month_end := if y = e.year ∧ m = e.month then e else month_end
  (month_start, month_end)

/-- The sequence of month slices the handler's loop requests: the
composition of `get_months_between_dates` and `get_month_range`. -/
def planSlices (s e : Date) : List (Date × Date) :=
  (get_months_between_dates s e).map (fun ym => get_month_range ym.1 ym.2 s e)

/-- The set of real calendar dates a slice `(lo, hi)` stands for: the
valid dates chronologically between its two bounds. -/
def covered (p : Date × Date) (d : Date) : Prop :=
  d.valid ∧ dateLe p.1 d ∧ dateLe d p.2

instance (p : Date × Date) (d : Date) : Decidable (covered p d) := by
  unfold covered; infer_instance

/-! ## Lemmas about the chronological order -/

theorem daysInMonth_le_31 (y m : Nat) : daysInMonth y m ≤ 31 := by
  unfold daysInMonth
  split
  · split <;> omega
  · split <;> omega

theorem monthIdx_le_of_dateLe {a b : Date} (ha : a.month ≤ 12) (hb : 1 ≤ b.month)
    (h : dateLe a b) : monthIdx a ≤ monthIdx b := by
  unfold dateLe at h; unfold monthIdx; omega

theorem dateLt_of_monthIdx_lt {a b : Date} (ha : 1 ≤ a.month) (hb : b.month ≤ 12)
    (h : monthIdx a < monthIdx b) : dateLt a b := by
  unfold monthIdx at h; unfold dateLt; omega

theorem dateLe_of_dateLt {a b : Date} (h : dateLt a b) : dateLe a b := by
  unfold dateLt at h; unfold dateLe; omega

theorem ymOfIdx_spec (n : Nat) (h : 1 ≤ n) :
    1 ≤ (ymOfIdx n).2 ∧ (ymOfIdx n).2 ≤ 12 ∧ (ymOfIdx n).1 * 12 + (ymOfIdx n).2 = n := by
  unfold ymOfIdx; dsimp only; omega

theorem ymOfIdx_mul_add (y m : Nat) (h1 : 1 ≤ m) (h2 : m ≤ 12) :
    ymOfIdx (y * 12 + m) = (y, m) := by
  unfold ymOfIdx
  have hy : (y * 12 + m - 1) / 12 = y := by omega
  have hm : (y * 12 + m - 1) % 12 + 1 = m := by omega
  rw [hy, hm]

/-! ## Closed form of the month walk -/

theorem monthsLoop_eq (fuel : Nat) : ∀ cy cm ey em : Nat,
    1 ≤ cm → cm ≤ 12 → 1 ≤ em → em ≤ 12 →
    ey * 12 + em + 1 - (cy * 12 + cm) ≤ fuel →
    monthsLoop fuel cy cm ey em =
      (List.range (ey * 12 + em + 1 - (cy * 12 + cm))).map
        (fun i => ymOfIdx (cy * 12 + cm + i)) := by
  induction fuel with
  | zero =>
    intro cy cm ey em _ _ _ _ hfuel
    have h0 : ey * 12 + em + 1 - (cy * 12 + cm) = 0 := by omega
    rw [h0]
    rfl
  | succ fuel ih =>
    intro cy cm ey em hcm1 hcm2 hem1 hem2 hfuel
    by_cases hg : cy < ey ∨ (cy = ey ∧ cm ≤ em)
    · have hle : cy * 12 + cm ≤ ey * 12 + em := by omega
      have hk : ey * 12 + em + 1 - (cy * 12 + cm)
          = (ey * 12 + em + 1 - (cy * 12 + cm + 1)) + 1 := by omega
      rw [monthsLoop, if_pos hg, hk, List.range_succ_eq_map, List.map_cons, List.map_map]
      have hhead : ymOfIdx (cy * 12 + cm + 0) = (cy, cm) := by
        rw [Nat.add_zero]; exact ymOfIdx_mul_add cy cm hcm1 hcm2
      rw [hhead]
      congr 1
      by_cases hc : cm = 12
      · rw [if_pos hc]
        subst hc
        have hrec := ih (cy + 1) 1 ey em (by omega) (by omega) hem1 hem2 (by omega)
        rw [hrec]
        have harg : (cy + 1) * 12 + 1 = cy * 12 + 12 + 1 := by omega
        rw [harg]
        apply List.map_congr_left
        intro i _
        simp only [Function.comp]
        congr 1
        omega
      · rw [if_neg hc]
        have hrec := ih cy (cm + 1) ey em (by omega) (by omega) hem1 hem2 (by omega)
        rw [hrec]
        have harg : ey * 12 + em + 1 - (cy * 12 + (cm + 1))
            = ey * 12 + em + 1 - (cy * 12 + cm + 1) := by omega
        rw [harg]
        apply List.map_congr_left
        intro i _
        simp only [Function.comp]
        congr 1
        omega
    · have h0 : ey * 12 + em + 1 - (cy * 12 + cm) = 0 := by omega
      rw [monthsLoop, if_neg hg, h0]
      rfl

theorem get_months_eq (s e : Date) (hs : s.valid) (he : e.valid) :
    get_months_between_dates s e =
      (List.range (monthIdx e + 1 - monthIdx s)).map
        (fun i => ymOfIdx (monthIdx s + i)) := by
  unfold get_months_between_dates monthIdx
  exact monthsLoop_eq _ s.year s.month e.year e.month
    hs.2.1 hs.2.2.1 he.2.1 he.2.2.1 (Nat.le_refl _)

theorem get_month_range_eq (y m : Nat) (s e : Date) :
    get_month_range y m s e =
      ((if y = s.year ∧ m = s.month then s else ⟨y, m, 1⟩),
       (if y = e.year ∧ m = e.month then e else ⟨y, m, 31⟩)) := rfl

/-- The dates a slice of the plan covers are exactly the valid dates of
its month, intersected with the requested range. -/
theorem covered_slice_iff (s e : Date) (hs : s.valid) (he : e.valid)
    (n : Nat) (hn1 : monthIdx s ≤ n) (hn2 : n ≤ monthIdx e) (d : Date) (hd : d.valid) :
    covered (get_month_range (ymOfIdx n).1 (ymOfIdx n).2 s e) d ↔
      (monthIdx d = n ∧ dateLe s d ∧ dateLe d e) := by
  obtain ⟨hsy, hsm1, hsm2, hsd1, hsd2⟩ := hs
  obtain ⟨hey, hem1, hem2, hed1, hed2⟩ := he
  have hn0 : 1 ≤ n := by unfold monthIdx at hn1; omega
  obtain ⟨hm1, hm2, hym⟩ := ymOfIdx_spec n hn0
  have hd31 : d.day ≤ 31 := Nat.le_trans hd.2.2.2.2 (daysInMonth_le_31 d.year d.month)
  obtain ⟨hdy, hdm1, hdm2, hdd1, hdd2⟩ := hd
  rw [get_month_range_eq]
  unfold covered Date.valid dateLe monthIdx at *
  split_ifs with h1 h2 h2 <;> dsimp only <;> omega

theorem countP_range_decide (k i0 : Nat) :
    (List.range k).countP (fun i => decide (i = i0)) = if i0 < k then 1 else 0 := by
  induction k with
  | zero => rfl
  | succ k ih =>
    rw [List.range_succ, List.countP_append, ih]
    by_cases h : k = i0
    · subst h
      simp [List.countP_cons, Nat.lt_succ_self]
    · simp only [List.countP_cons, List.countP_nil, decide_eq_true_eq]
      rw [if_neg h]
      split_ifs <;> omega

/-- **C1.** For every valid date range `start ≤ end`, the month slices the
partitioner produces (`get_months_between_dates` composed with
`get_month_range`, each slice read as the set of valid calendar dates
between its bounds) are non-empty as a sequence, chronologically ordered
and pairwise disjoint, and cover every valid calendar date of the input
range exactly once and no date outside it. -/
theorem claim_C1 (s e : Date) (hs : s.valid) (he : e.valid) (hse : dateLe s e) :
    planSlices s e ≠ [] ∧
    (∀ d : Date, d.valid →
      (planSlices s e).countP (fun p => decide (covered p d))
        = if dateLe s d ∧ dateLe d e then 1 else 0) ∧
    List.Pairwise (fun p q => ∀ d dd : Date, covered p d → covered q dd → dateLt d dd)
      (planSlices s e) := by
  have hSE : monthIdx s ≤ monthIdx e := monthIdx_le_of_dateLe hs.2.2.1 he.2.1 hse
  have hplan : planSlices s e
      = (List.range (monthIdx e + 1 - monthIdx s)).map
          (fun i => get_month_range (ymOfIdx (monthIdx s + i)).1
            (ymOfIdx (monthIdx s + i)).2 s e) := by
    unfold planSlices
    rw [get_months_eq s e hs he, List.map_map]
    rfl
  refine ⟨?_, ?_, ?_⟩
  · rw [hplan]
    intro hcon
    have hlen := congrArg List.length hcon
    simp only [List.length_map, List.length_range, List.length_nil] at hlen
    omega
  · intro d hd
    rw [hplan, List.countP_map]
    by_cases hin : dateLe s d ∧ dateLe d e
    · rw [if_pos hin]
      have hd1 : monthIdx s ≤ monthIdx d := monthIdx_le_of_dateLe hs.2.2.1 hd.2.1 hin.1
      have hd2 : monthIdx d ≤ monthIdx e := monthIdx_le_of_dateLe hd.2.2.1 he.2.1 hin.2
      have hcong : ∀ i ∈ List.range (monthIdx e + 1 - monthIdx s),
          ((fun p => decide (covered p d)) ∘ (fun i =>
            get_month_range (ymOfIdx (monthIdx s + i)).1
              (ymOfIdx (monthIdx s + i)).2 s e)) i = true
            ↔ (fun i => decide (i = monthIdx d - monthIdx s)) i = true := by
        intro i hi
        rw [List.mem_range] at hi
        simp only [Function.comp, decide_eq_true_eq]
        rw [covered_slice_iff s e hs he (monthIdx s + i) (by omega) (by omega) d hd]
        constructor
        · rintro ⟨hidx, -, -⟩
          omega
        · intro hidx
          exact ⟨by omega, hin.1, hin.2⟩
      rw [List.countP_congr hcong, countP_range_decide, if_pos (by omega)]
    · rw [if_neg hin]
      rw [List.countP_eq_zero]
      intro i hi
      rw [List.mem_range] at hi
      simp only [Function.comp, decide_eq_true_eq]
      rw [covered_slice_iff s e hs he (monthIdx s + i) (by omega) (by omega) d hd]
      rintro ⟨-, h2, h3⟩
      exact hin ⟨h2, h3⟩
  · rw [hplan, List.pairwise_map]
    refine List.Pairwise.imp_of_mem ?_ (List.pairwise_lt_range _)
    intro a b ha hb hab d dd hcd hcdd
    rw [List.mem_range] at ha hb
    have hdv : d.valid := hcd.1
    have hddv : dd.valid := hcdd.1
    rw [covered_slice_iff s e hs he (monthIdx s + a) (by omega) (by omega) d hdv] at hcd
    rw [covered_slice_iff s e hs he (monthIdx s + b) (by omega) (by omega) dd hddv] at hcdd
    exact dateLt_of_monthIdx_lt hdv.2.1 hddv.2.2.1 (by omega)

/-- Witness for C1 at the spec's own end-to-end example range
`2023-01-15 .. 2023-02-10`. -/
theorem claim_C1_witness :
    Date.valid ⟨2023, 1, 15⟩ ∧ Date.valid ⟨2023, 2, 10⟩ ∧
      dateLe ⟨2023, 1, 15⟩ ⟨2023, 2, 10⟩ ∧
      (planSlices ⟨2023, 1, 15⟩ ⟨2023, 2, 10⟩ ≠ [] ∧
       (∀ d : Date, d.valid →
         (planSlices ⟨2023, 1, 15⟩ ⟨2023, 2, 10⟩).countP (fun p => decide (covered p d))
           = if dateLe ⟨2023, 1, 15⟩ d ∧ dateLe d ⟨2023, 2, 10⟩ then 1 else 0) ∧
       List.Pairwise (fun p q => ∀ d dd : Date, covered p d → covered q dd → dateLt d dd)
         (planSlices ⟨2023, 1, 15⟩ ⟨2023, 2, 10⟩)) :=
  ⟨by decide, by decide, by decide,
    claim_C1 ⟨2023, 1, 15⟩ ⟨2023, 2, 10⟩ (by decide) (by decide) (by decide)⟩

/-- **C2, counterexample.** The claim says a non-first/non-last month
slice ends on the true last day of its month, and that the February slice
of the range `2024-02-01 .. 2024-03-01` ends at `2024-02-29`.  On the
code, the February slice of that range ends at the literal bound
`2024-02-31`, and so does the February slice of `2024-01-15 .. 2024-03-10`
where February is strictly in the middle. -/
theorem claim_C2_counterexample :
    planSlices ⟨2024, 2, 1⟩ ⟨2024, 3, 1⟩
        = [(⟨2024, 2, 1⟩, ⟨2024, 2, 31⟩), (⟨2024, 3, 1⟩, ⟨2024, 3, 1⟩)] ∧
    (get_month_range 2024 2 ⟨2024, 1, 15⟩ ⟨2024, 3, 10⟩).2 = ⟨2024, 2, 31⟩ ∧
    (⟨2024, 2, 31⟩ : Date) ≠ ⟨2024, 2, 29⟩ ∧
    (⟨2024, 2, 31⟩ : Date) ≠ ⟨2024, 2, 28⟩ := by decide

/-- **C2, amended.** A month that is neither the first nor the last of the
range gets the bounds day `1` .. literal day `31`, regardless of the true
month length; the set of valid dates such a slice covers is still exactly
its month (leap-year aware), e.g. the February-2024 slice covers
`2024-02-29` and nothing beyond. -/
theorem claim_C2_amended (y m : Nat) (s e : Date)
    (h1 : ¬(y = s.year ∧ m = s.month)) (h2 : ¬(y = e.year ∧ m = e.month)) :
    get_month_range y m s e = (⟨y, m, 1⟩, ⟨y, m, 31⟩) ∧
    (∀ d : Date, d.valid →
      (covered (⟨2024, 2, 1⟩, ⟨2024, 2, 31⟩) d ↔ d.year = 2024 ∧ d.month = 2)) := by
  constructor
  · rw [get_month_range_eq, if_neg h1, if_neg h2]
  · intro d hd
    have h31 := daysInMonth_le_31 d.year d.month
    obtain ⟨hdy, hdm1, hdm2, hdd1, hdd2⟩ := hd
    unfold covered Date.valid dateLe
    dsimp only
    omega

/-- Witness for the amended C2: February 2024 inside `2024-01-15 .. 2024-03-10`. -/
theorem claim_C2_amended_witness :
    ¬((2024 : Nat) = (⟨2024, 1, 15⟩ : Date).year ∧ (2 : Nat) = (⟨2024, 1, 15⟩ : Date).month) ∧
    ¬((2024 : Nat) = (⟨2024, 3, 10⟩ : Date).year ∧ (2 : Nat) = (⟨2024, 3, 10⟩ : Date).month) ∧
    (get_month_range 2024 2 ⟨2024, 1, 15⟩ ⟨2024, 3, 10⟩ = (⟨2024, 2, 1⟩, ⟨2024, 2, 31⟩) ∧
     (∀ d : Date, d.valid →
       (covered (⟨2024, 2, 1⟩, ⟨2024, 2, 31⟩) d ↔ d.year = 2024 ∧ d.month = 2))) :=
  ⟨by decide, by decide,
    claim_C2_amended 2024 2 ⟨2024, 1, 15⟩ ⟨2024, 3, 10⟩ (by decide) (by decide)⟩

/-! ## Rates data and the flat-array transformation -/

/-- Rates are opaque to the service; we model them as integers. -/
abbrev Rate := Int

/-- A date-keyed mapping of symbol-keyed rates, as an insertion-ordered
association list (the model of a Python dict of dicts). -/
abbrev RatesMap := List (String × List (String × Rate))

/-- One element of the flat array the endpoint returns:
`{"day": date, "price": rate, "symbol": currency}`. -/
structure Entry where
  day : String
  price : Rate
  symbol : String
deriving DecidableEq, Repr

/-- `transform_rates_format`: the nested loop that appends one entry per
`(date, currency)` pair, in iteration order. -/
def transform_rates_format (rates_data : RatesMap) : List Entry :=
  rates_data.foldl
    (fun transformed_data dc =>
      dc.2.foldl
        (fun acc cr => acc ++ [{ day := dc.1, price := cr.2, symbol := cr.1 }])
        transformed_data)
    []

/-- `dict[k] = v` on an insertion-ordered association list: an existing
key keeps its position, a fresh key is appended (CPython dict semantics). -/
def dictSet (m : RatesMap) (k : String) (v : List (String × Rate)) : RatesMap :=
  if m.any (fun p => p.1 == k) then
    m.map (fun p => if p.1 == k then (k, v) else p)
  else m ++ [(k, v)]

/-- `dict.update`: write every key of `new` into `acc` in order. -/
def dictUpdate (acc new : RatesMap) : RatesMap :=
  new.foldl (fun m p => dictSet m p.1 p.2) acc

theorem foldl_append_map {α β : Type} (f : α → β) (l : List α) :
    ∀ init : List β, l.foldl (fun acc x => acc ++ [f x]) init = init ++ l.map f := by
  induction l with
  | nil => intro init; simp
  | cons a l ih =>
    intro init
    rw [List.foldl_cons, ih, List.map_cons]
    simp

/-- The nested append loop of `transform_rates_format` is the flat-map of
the per-date blocks. -/
theorem transform_eq_bind (rates_data : RatesMap) :
    transform_rates_format rates_data =
      rates_data.flatMap (fun dc =>
        dc.2.map (fun cr => { day := dc.1, price := cr.2, symbol := cr.1 })) := by
  unfold transform_rates_format
  suffices h : ∀ init : List Entry,
      rates_data.foldl
        (fun transformed_data dc =>
          dc.2.foldl
            (fun acc cr => acc ++ [{ day := dc.1, price := cr.2, symbol := cr.1 }])
            transformed_data)
        init
      = init ++ rates_data.flatMap (fun dc =>
          dc.2.map (fun cr => { day := dc.1, price := cr.2, symbol := cr.1 })) by
    rw [h []]; rfl
  induction rates_data with
  | nil => intro init; simp
  | cons dc rest ih =>
    intro init
    rw [List.foldl_cons, ih, foldl_append_map, List.flatMap_cons, List.append_assoc]

theorem pairwise_of_all {α : Type} {R : α → α → Prop} (h : ∀ a b, R a b) :
    ∀ l : List α, l.Pairwise R
  | [] => List.Pairwise.nil
  | a :: l => List.Pairwise.cons (fun x _ => h a x) (pairwise_of_all h l)

theorem day_mem_of_mem_transform {rates_data : RatesMap} {en : Entry}
    (h : en ∈ transform_rates_format rates_data) :
    en.day ∈ rates_data.map Prod.fst := by
  rw [transform_eq_bind, List.mem_flatMap] at h
  obtain ⟨dc, hdc, h⟩ := h
  rw [List.mem_map] at h
  obtain ⟨cr, -, rfl⟩ := h
  exact List.mem_map.mpr ⟨dc, hdc, rfl⟩

/-- **C10.** The flat-array transformation emits exactly one
`{day, price, symbol}` entry per `(date, symbol)` occurrence of the input
mapping, preserves every rate value, and its length is the sum over the
dates of the number of symbols at that date. -/
theorem claim_C10 (rates_data : RatesMap) :
    (transform_rates_format rates_data).length
        = (rates_data.map (fun dc => dc.2.length)).sum ∧
    (∀ (d : String) (r : Rate) (sym : String),
      ({ day := d, price := r, symbol := sym } : Entry) ∈ transform_rates_format rates_data
        ↔ ∃ cs, (d, cs) ∈ rates_data ∧ (sym, r) ∈ cs) ∧
    (∀ d sym,
      (transform_rates_format rates_data).countP
          (fun en => en.day == d && en.symbol == sym)
        = (rates_data.map (fun dc =>
            if dc.1 = d then dc.2.countP (fun cr => cr.1 == sym) else 0)).sum) := by
  refine ⟨?_, ?_, ?_⟩
  · rw [transform_eq_bind, List.length_flatMap]
    congr 1
    apply List.map_congr_left
    intro dc _
    simp [Function.comp]
  · intro d r sym
    rw [transform_eq_bind]
    constructor
    · intro h
      rw [List.mem_flatMap] at h
      obtain ⟨dc, hdc, h⟩ := h
      rw [List.mem_map] at h
      obtain ⟨cr, hcr, heq⟩ := h
      injection heq with h1 h2 h3
      refine ⟨dc.2, ?_, ?_⟩
      · rw [← h1]; exact hdc
      · rw [← h3, ← h2]; exact hcr
    · rintro ⟨cs, hmem, hcr⟩
      rw [List.mem_flatMap]
      exact ⟨(d, cs), hmem, List.mem_map.mpr ⟨(sym, r), hcr, rfl⟩⟩
  · intro d sym
    rw [transform_eq_bind, List.countP_flatMap]
    congr 1
    apply List.map_congr_left
    intro dc _
    simp only [Function.comp, List.countP_map]
    by_cases hdc : dc.1 = d
    · rw [if_pos hdc]
      apply List.countP_congr
      intro cr _
      simp [Function.comp, hdc]
    · rw [if_neg hdc]
      rw [List.countP_eq_zero]
      intro cr _
      simp [Function.comp, hdc]

/-- **C8, counterexample.**  `transform_rates_format` does not sort: a
merged mapping whose keys arrive out of order is rendered out of order
(the code preserves dict insertion order and never sorts by date). -/
theorem claim_C8_counterexample :
    ¬ (transform_rates_format
        [("2023-01-02", [("EUR", (1 : Rate))]), ("2023-01-01", [("EUR", (2 : Rate))])]).Pairwise
      (fun x y => x.day ≤ y.day) := by
  intro h
  have hrel := List.rel_of_pairwise_cons h (List.mem_singleton.mpr rfl)
  rw [String.le_iff_toList_le] at hrel
  exact absurd hrel (by decide)

/-- **C8, amended.** The rendering preserves the insertion order of the
merged date-keyed mapping (one block of entries per date, in mapping
order); it is date-ascending exactly when the mapping's key sequence is
ascending — which the code does not itself enforce. -/
theorem claim_C8_amended (rates_data : RatesMap)
    (hsorted : (rates_data.map Prod.fst).Pairwise (fun a b => a ≤ b)) :
    (transform_rates_format rates_data).Pairwise (fun x y => x.day ≤ y.day) := by
  induction rates_data with
  | nil => exact List.Pairwise.nil
  | cons dc rest ih =>
    rw [transform_eq_bind, List.flatMap_cons, List.pairwise_append]
    rw [List.map_cons, List.pairwise_cons] at hsorted
    refine ⟨?_, ?_, ?_⟩
    · rw [List.pairwise_map]
      exact pairwise_of_all (fun a b => le_refl _) dc.2
    · rw [← transform_eq_bind]
      exact ih hsorted.2
    · intro x hx y hy
      rw [List.mem_map] at hx
      obtain ⟨cr, -, rfl⟩ := hx
      rw [← transform_eq_bind] at hy
      exact hsorted.1 y.day (day_mem_of_mem_transform hy)

/-- Witness for the amended C8 on a two-date mapping with ascending keys. -/
theorem claim_C8_amended_witness :
    (([("2023-01-01", [("EUR", (2 : Rate))]), ("2023-01-02", [("EUR", (1 : Rate))])] :
        RatesMap).map Prod.fst).Pairwise (fun a b => a ≤ b) ∧
    (transform_rates_format
        [("2023-01-01", [("EUR", (2 : Rate))]), ("2023-01-02", [("EUR", (1 : Rate))])]).Pairwise
      (fun x y => x.day ≤ y.day) := by
  have hs : (([("2023-01-01", [("EUR", (2 : Rate))]), ("2023-01-02", [("EUR", (1 : Rate))])] :
      RatesMap).map Prod.fst).Pairwise (fun a b => a ≤ b) := by
    show (["2023-01-01", "2023-01-02"] : List String).Pairwise (fun a b => a ≤ b)
    refine List.Pairwise.cons ?_ (List.Pairwise.cons ?_ List.Pairwise.nil)
    · intro b hb
      rw [List.mem_singleton] at hb
      subst hb
      rw [String.le_iff_toList_le]
      decide
    · intro b hb
      exact absurd hb (List.not_mem_nil b)
  exact ⟨hs, claim_C8_amended _ hs⟩

/-! ## The cache fingerprint -/

/-- How a Python f-string renders an optional string: `None` prints as the
literal text `"None"`, a present string prints as itself. -/
def pyStr : Option String → String
  | none => "None"
  | some s => s

/-- The handler's cache fingerprint
`f"{start_date}_{end_date}_{symbols}_{base}_{app_id}"`. -/
def cache_key (start_date end_date : String) (symbols base : Option String)
    (app_id : String) : String :=
  start_date ++ "_" ++ end_date ++ "_" ++ pyStr symbols ++ "_" ++ pyStr base
    ++ "_" ++ app_id

/-- **C6, counterexample.** Two requests that differ in `symbols` (absent
versus the literal string `"None"`) produce the same fingerprint, so the
fingerprint is not injective in the five inputs — and the collision is
certain, not merely probable. -/
theorem claim_C6_counterexample :
    cache_key "2023-01-01" "2023-01-31" none none "key1"
        = cache_key "2023-01-01" "2023-01-31" (some "None") none "key1" ∧
    (none : Option String) ≠ some "None" := by
  constructor
  · rfl
  · intro h
    exact Option.noConfusion h

/-- **C6, amended.** The fingerprint is a deterministic function of the
five inputs, but distinct inputs can collide: an absent `symbols` (or
`base`) is rendered as the text `"None"`, identical to a present value
`"None"`, and an underscore inside one value can shift into the
neighbouring field.  A cached record can therefore be reused for a
different parameter set. -/
theorem claim_C6_amended :
    (∀ (s e : String) (b : Option String) (a : String),
      cache_key s e none b a = cache_key s e (some "None") b a) ∧
    (∀ (s e a x y z : String),
      cache_key s e (some (x ++ "_" ++ y)) (some z) a
        = cache_key s e (some x) (some (y ++ "_" ++ z)) a) := by
  constructor
  · intro s e b a
    rfl
  · intro s e a x y z
    unfold cache_key pyStr
    simp only [String.append_assoc]

/-! ## The request handler -/

/-- Python truthiness of an optional request parameter: absent (`None`)
and the empty string are falsy. -/
def truthy : Option String → Bool
  | none => false
  | some s => !(s == "")

/-- Python `a or b` on optional strings, as used for
`request.args.get("app_id") or os.environ.get(...)`. -/
def pyOr (a b : Option String) : Option String :=
  if truthy a then a else b

/-- One upstream request: the query parameters of the URL the handler
builds (`app_id`, `start`, `end`, and `symbols`/`base` only when truthy). -/
structure UReq where
  app_id : String
  month_start : Date
  month_end : Date
  symbols : Option String
  base : Option String
deriving DecidableEq, Repr

deriving instance DecidableEq for Except

/-- The JSON body of an upstream response; either field may be absent
(`month_data.get`). -/
structure MonthData where
  base : Option String
  rates : Option RatesMap
deriving DecidableEq

/-- An upstream HTTP response; `json = .error msg` models
`response.json()` raising with message `msg`. -/
structure UResponse where
  status_code : Nat
  text : String
  json : Except String MonthData
deriving DecidableEq

/-- Externally observable step of the orchestration: an upstream call or
a `time.sleep(1)` pacing delay. -/
inductive Ev where
  | call (r : UReq)
  | sleep
deriving DecidableEq

def Ev.isCall : Ev → Bool
  | .call _ => true
  | .sleep => false

def Ev.isSleep : Ev → Bool
  | .call _ => false
  | .sleep => true

/-- A record of the in-memory `cache` dict:
`{"data": ..., "timestamp": ...}`. -/
structure CacheEntry where
  data : List Entry
  timestamp : Nat
deriving DecidableEq

/-- The process-wide `cache` dict. -/
def Cache := String → Option CacheEntry

/-- `CACHE_EXPIRY = 3600  # 1 hour`. -/
def CACHE_EXPIRY : Nat := 3600

/-- The handler's possible responses: `jsonify(data)` with status 200,
`jsonify({"error": msg}), code`, or the exception path
`jsonify({"error": msg, "details": ...}), 500`. -/
inductive HRes where
  | ok (body : List Entry)
  | err (msg : String) (code : Nat)
  | err500 (msg details : String)
deriving DecidableEq, Repr

/-- Outcome of the month loop, before response shaping. -/
inductive LoopOut where
  | success (rates : RatesMap)
  | apiError (msg : String) (code : Nat)
  | exc (msg : String)

/-- `f"API Error ({response.status_code}): {response.text}"`. -/
def apiErrorMsg (code : Nat) (text : String) : String :=
  "API Error (" ++ toString code ++ "): " ++ text

/-- The upstream request the handler builds for month `ym` of the range:
bounds from `get_month_range`, optional parameters appended only when
truthy (`if symbols:` / `if base:`). -/
def mkReq (app_id : String) (symbols base : Option String) (s e : Date)
    (ym : Nat × Nat) : UReq :=
  { app_id := app_id
    month_start := (get_month_range ym.1 ym.2 s e).1
    month_end := (get_month_range ym.1 ym.2 s e).2
    symbols := if truthy symbols then symbols else none
    base := if truthy base then base else none }

/-- The `for i, month in enumerate(months)` loop of the handler: for each
month, build the request, sleep one pacing unit when `i > 0`, perform the
call, abort on a non-200 status (`.apiError`) or on a raised exception
(`.exc`, transport or JSON decode), and otherwise merge
`month_data.get("rates", {})` into the accumulator.  Returns the emitted
event trace and the outcome.  (The source also records an unused
`api_base` variable for logging; it has no effect on any output and is
omitted.) -/
def loopMonths (http : UReq → Except String UResponse) (app_id : String)
    (symbols base : Option String) (s e : Date) :
    List (Nat × Nat) → Nat → RatesMap → List Ev × LoopOut
  | [], _, combined_rates => ([], .success combined_rates)
  | ym :: rest, i, combined_rates =>
    let r := mkReq app_id symbols base s e ym
    let pre : List Ev := if 0 < i then [Ev.sleep] else []
    match http r with
    | .error emsg => (pre ++ [Ev.call r], .exc emsg)
    | .ok resp =>
      if resp.status_code ≠ 200 then
        (pre ++ [Ev.call r],
          .apiError (apiErrorMsg resp.status_code resp.text) resp.status_code)
      else
        match resp.json with
        | .error jmsg => (pre ++ [Ev.call r], .exc jmsg)
        | .ok month_data =>
          let res := loopMonths http app_id symbols base s e rest (i + 1)
            (dictUpdate combined_rates (month_data.rates.getD []))
          (pre ++ [Ev.call r] ++ res.1, res.2)

/-- The cache probe
`cache_key in cache and (time.time() - cache[cache_key]["timestamp"]) < CACHE_EXPIRY`,
returning the stored data on a fresh hit. -/
def cacheLookup (cache : Cache) (key : String) (now : Nat) : Option (List Entry) :=
  match cache key with
  | some entry => if now - entry.timestamp < CACHE_EXPIRY then some entry.data else none
  | none => none

/-- The `/api/exchange-rates` handler.  Arguments: the environment
variable `OPENEXCHANGERATES_APP_ID`, the upstream oracle, the current
time, the five request parameters, and the cache.  Returns the response,
the cache after the request, and the trace of upstream calls and pacing
delays.  The two date validations (`validate_date`, which is
`(parseDate s).isSome`, followed by re-parsing) are expressed as one
`match` on `parseDate`; the fallback arm is the `validate_date` failure
response. -/
def exchange_rates (env_app_id : Option String)
    (http : UReq → Except String UResponse) (now : Nat)
    (start_date end_date symbols base app_id : Option String)
    (cache : Cache) : HRes × Cache × List Ev :=
  let app_id2 := pyOr app_id env_app_id
  if ¬ truthy app_id2 then
    (.err "API key (app_id) is required" 400, cache, [])
  else if ¬ truthy start_date ∨ ¬ truthy end_date then
    (.err "start_date and end_date are required" 400, cache, [])
  else
    match parseDate (start_date.getD ""), parseDate (end_date.getD "") with
    | some sD, some eD =>
      if dateLt eD sD then
        (.err "start_date must be before end_date" 400, cache, [])
      else
        let key := cache_key (start_date.getD "") (end_date.getD "")
          symbols base (app_id2.getD "")
        match cacheLookup cache key now with
        | some data => (.ok data, cache, [])
        | none =>
          let months := get_months_between_dates sD eD
          let res := loopMonths http (app_id2.getD "") symbols base sD eD months 0 []
          match res.2 with
          | .success rates =>
            let transformed_data := transform_rates_format rates
            (.ok transformed_data,
              fun k => if k = key then some ⟨transformed_data, now⟩ else cache k,
              res.1)
          | .apiError msg code => (.err msg code, cache, res.1)
          | .exc m =>
            (.err500 ("Error processing request: " ++ m)
              "Check server logs for more information", cache, res.1)
    | _, _ => (.err "Invalid date format. Use YYYY-MM-DD" 400, cache, [])

/-- The event trace the loop emits while months succeed: no delay before
the first call (`i = 0`), one delay before every later call. -/
def monthTrace (app_id : String) (symbols base : Option String) (s e : Date) :
    List (Nat × Nat) → Nat → List Ev
  | [], _ => []
  | ym :: rest, i =>
    (if 0 < i then [Ev.sleep] else [])
      ++ Ev.call (mkReq app_id symbols base s e ym)
      :: monthTrace app_id symbols base s e rest (i + 1)

/-- A successful upstream exchange: no transport exception, HTTP 200, and
a JSON body that decodes. -/
def okRespB : Except String UResponse → Bool
  | .error _ => false
  | .ok resp =>
    (resp.status_code == 200) &&
      (match resp.json with
       | .ok _ => true
       | .error _ => false)

theorem okRespB_elim {r : Except String UResponse} (h : okRespB r = true) :
    ∃ resp md, r = .ok resp ∧ resp.status_code = 200 ∧ resp.json = .ok md := by
  cases r with
  | error e => simp [okRespB] at h
  | ok resp =>
    simp only [okRespB, Bool.and_eq_true, beq_iff_eq] at h
    obtain ⟨h1, h2⟩ := h
    cases hj : resp.json with
    | error jm => rw [hj] at h2; simp at h2
    | ok md => exact ⟨resp, md, rfl, h1, hj⟩

theorem loopMonths_cons_ok (http : UReq → Except String UResponse) (app_id : String)
    (symbols base : Option String) (s e : Date) (ym : Nat × Nat)
    (rest : List (Nat × Nat)) (i : Nat) (acc : RatesMap)
    (resp : UResponse) (md : MonthData)
    (hhttp : http (mkReq app_id symbols base s e ym) = .ok resp)
    (hst : resp.status_code = 200) (hjs : resp.json = .ok md) :
    loopMonths http app_id symbols base s e (ym :: rest) i acc
      = ((if 0 < i then [Ev.sleep] else [])
          ++ Ev.call (mkReq app_id symbols base s e ym)
          :: (loopMonths http app_id symbols base s e rest (i + 1)
              (dictUpdate acc (md.rates.getD []))).1,
         (loopMonths http app_id symbols base s e rest (i + 1)
            (dictUpdate acc (md.rates.getD []))).2) := by
  simp only [loopMonths]
  rw [hhttp]
  simp only [hst, hjs]
  simp [List.append_assoc]

theorem loopMonths_cons_transport (http : UReq → Except String UResponse)
    (app_id : String) (symbols base : Option String) (s e : Date) (ym : Nat × Nat)
    (rest : List (Nat × Nat)) (i : Nat) (acc : RatesMap) (emsg : String)
    (hhttp : http (mkReq app_id symbols base s e ym) = .error emsg) :
    loopMonths http app_id symbols base s e (ym :: rest) i acc
      = ((if 0 < i then [Ev.sleep] else [])
          ++ [Ev.call (mkReq app_id symbols base s e ym)], .exc emsg) := by
  simp only [loopMonths]
  rw [hhttp]

theorem loopMonths_cons_status (http : UReq → Except String UResponse)
    (app_id : String) (symbols base : Option String) (s e : Date) (ym : Nat × Nat)
    (rest : List (Nat × Nat)) (i : Nat) (acc : RatesMap) (resp : UResponse)
    (hhttp : http (mkReq app_id symbols base s e ym) = .ok resp)
    (hst : resp.status_code ≠ 200) :
    loopMonths http app_id symbols base s e (ym :: rest) i acc
      = ((if 0 < i then [Ev.sleep] else [])
          ++ [Ev.call (mkReq app_id symbols base s e ym)],
         .apiError (apiErrorMsg resp.status_code resp.text) resp.status_code) := by
  simp only [loopMonths]
  rw [hhttp]
  simp only [if_pos hst]

theorem loopMonths_cons_jsonfail (http : UReq → Except String UResponse)
    (app_id : String) (symbols base : Option String) (s e : Date) (ym : Nat × Nat)
    (rest : List (Nat × Nat)) (i : Nat) (acc : RatesMap) (resp : UResponse)
    (jmsg : String)
    (hhttp : http (mkReq app_id symbols base s e ym) = .ok resp)
    (hst : resp.status_code = 200) (hjs : resp.json = .error jmsg) :
    loopMonths http app_id symbols base s e (ym :: rest) i acc
      = ((if 0 < i then [Ev.sleep] else [])
          ++ [Ev.call (mkReq app_id symbols base s e ym)], .exc jmsg) := by
  simp only [loopMonths]
  rw [hhttp]
  simp only [hst, hjs]
  simp

theorem loopMonths_prefix (http : UReq → Except String UResponse) (app_id : String)
    (symbols base : Option String) (s e : Date) :
    ∀ (pre rest : List (Nat × Nat)) (i : Nat) (acc : RatesMap),
      (∀ ym ∈ pre, okRespB (http (mkReq app_id symbols base s e ym)) = true) →
      ∃ acc2,
        loopMonths http app_id symbols base s e (pre ++ rest) i acc
          = (monthTrace app_id symbols base s e pre i
              ++ (loopMonths http app_id symbols base s e rest (i + pre.length) acc2).1,
             (loopMonths http app_id symbols base s e rest (i + pre.length) acc2).2) := by
  intro pre
  induction pre with
  | nil =>
    intro rest i acc _
    refine ⟨acc, ?_⟩
    simp [monthTrace]
  | cons ym pre ih =>
    intro rest i acc h
    obtain ⟨resp, md, hhttp, hst, hjs⟩ := okRespB_elim (h ym (List.mem_cons_self _ _))
    obtain ⟨acc2, hrec⟩ := ih rest (i + 1) (dictUpdate acc (md.rates.getD []))
      (fun ym2 h2 => h ym2 (List.mem_cons_of_mem _ h2))
    refine ⟨acc2, ?_⟩
    rw [List.cons_append,
      loopMonths_cons_ok http app_id symbols base s e ym (pre ++ rest) i acc resp md
        hhttp hst hjs, hrec]
    simp only [monthTrace, List.length_cons]
    have harith : i + (pre.length + 1) = i + 1 + pre.length := by omega
    rw [harith]
    simp [List.append_assoc]

theorem monthTrace_countP_call (app_id : String) (symbols base : Option String)
    (s e : Date) :
    ∀ (ms : List (Nat × Nat)) (i : Nat),
      (monthTrace app_id symbols base s e ms i).countP Ev.isCall = ms.length := by
  intro ms
  induction ms with
  | nil => intro i; rfl
  | cons ym rest ih =>
    intro i
    by_cases hi : 0 < i <;>
      simp [monthTrace, hi, List.countP_append, List.countP_cons, Ev.isCall, ih]

theorem monthTrace_countP_sleep (app_id : String) (symbols base : Option String)
    (s e : Date) :
    ∀ (ms : List (Nat × Nat)) (i : Nat),
      (monthTrace app_id symbols base s e ms i).countP Ev.isSleep
        = ms.length - 1 + (if 0 < i ∧ ms ≠ [] then 1 else 0) := by
  intro ms
  induction ms with
  | nil => intro i; simp [monthTrace]
  | cons ym rest ih =>
    intro i
    have h1 : (0 : Nat) < i + 1 := by omega
    by_cases hrest : rest = []
    · subst hrest
      by_cases hi : 0 < i <;>
        simp [monthTrace, hi, List.countP_append, List.countP_cons, Ev.isSleep]
    · have h2 : 0 < rest.length := List.length_pos.mpr hrest
      by_cases hi : 0 < i <;>
        simp [monthTrace, hi, hrest, h1, List.countP_append, List.countP_cons,
          Ev.isSleep, ih] <;>
        omega

theorem monthTrace_shift (app_id : String) (symbols base : Option String)
    (s e : Date) :
    ∀ (ms : List (Nat × Nat)) (i j : Nat), 0 < i → 0 < j →
      monthTrace app_id symbols base s e ms i
        = monthTrace app_id symbols base s e ms j := by
  intro ms
  induction ms with
  | nil => intro i j _ _; rfl
  | cons ym rest ih =>
    intro i j hi hj
    simp only [monthTrace, if_pos hi, if_pos hj]
    rw [ih (i + 1) (j + 1) (by omega) (by omega)]

/-- With index `0`, the trace of a run of successful months is exactly the
calls with one pacing delay interspersed between consecutive calls. -/
theorem monthTrace_eq_intersperse (app_id : String) (symbols base : Option String)
    (s e : Date) :
    ∀ ms : List (Nat × Nat),
      monthTrace app_id symbols base s e ms 0
        = List.intersperse Ev.sleep
            (ms.map (fun ym => Ev.call (mkReq app_id symbols base s e ym))) := by
  intro ms
  induction ms with
  | nil => rfl
  | cons ym rest ih =>
    cases rest with
    | nil => rfl
    | cons ym2 rest2 =>
      simp only [monthTrace, Nat.lt_irrefl, if_neg (by omega : ¬ (0 : Nat) < 0),
        List.nil_append, List.map_cons]
      rw [List.intersperse_cons_cons]
      simp only [List.map_cons] at ih
      rw [← ih]
      simp only [monthTrace, if_pos (by omega : (0 : Nat) < 1), List.nil_append]
      rw [monthTrace_shift app_id symbols base s e rest2 2 1 (by omega) (by omega)]
      rfl

theorem monthTrace_append (app_id : String) (symbols base : Option String)
    (s e : Date) :
    ∀ (xs ys : List (Nat × Nat)) (i : Nat),
      monthTrace app_id symbols base s e (xs ++ ys) i
        = monthTrace app_id symbols base s e xs i
          ++ monthTrace app_id symbols base s e ys (i + xs.length) := by
  intro xs
  induction xs with
  | nil =>
    intro ys i
    simp [monthTrace]
  | cons x xs ih =>
    intro ys i
    simp only [List.cons_append, monthTrace, List.length_cons, List.append_eq]
    rw [ih ys (i + 1)]
    have harith : i + (xs.length + 1) = i + 1 + xs.length := by omega
    rw [harith]
    simp [List.append_assoc]

/-- Reduction of the handler on a request that passes all four
validations: the behaviour is decided by the cache probe and the loop. -/
theorem exchange_rates_validated
    (env_app_id : Option String) (http : UReq → Except String UResponse) (now : Nat)
    (sStr eStr aStr : String) (symbols base app_id : Option String) (cache : Cache)
    (hA : pyOr app_id env_app_id = some aStr) (haT : aStr ≠ "")
    (hsT : sStr ≠ "") (heT : eStr ≠ "")
    (sD eD : Date) (hps : parseDate sStr = some sD) (hpe : parseDate eStr = some eD)
    (hord : ¬ dateLt eD sD) :
    exchange_rates env_app_id http now (some sStr) (some eStr) symbols base app_id cache
      = (match cacheLookup cache (cache_key sStr eStr symbols base aStr) now with
         | some data => (HRes.ok data, cache, ([] : List Ev))
         | none =>
           match (loopMonths http aStr symbols base sD eD
               (get_months_between_dates sD eD) 0 []).2 with
           | .success rates =>
             (HRes.ok (transform_rates_format rates),
              fun k => if k = cache_key sStr eStr symbols base aStr
                then some ⟨transform_rates_format rates, now⟩ else cache k,
              (loopMonths http aStr symbols base sD eD
                 (get_months_between_dates sD eD) 0 []).1)
           | .apiError msg code =>
             (HRes.err msg code, cache,
              (loopMonths http aStr symbols base sD eD
                 (get_months_between_dates sD eD) 0 []).1)
           | .exc m =>
             (HRes.err500 ("Error processing request: " ++ m)
                "Check server logs for more information", cache,
              (loopMonths http aStr symbols base sD eD
                 (get_months_between_dates sD eD) 0 []).1)) := by
  unfold exchange_rates
  rw [hA]
  have htA : truthy (some aStr) = true := by simp [truthy, haT]
  have htS : truthy (some sStr) = true := by simp [truthy, hsT]
  have htE : truthy (some eStr) = true := by simp [truthy, heT]
  rw [if_neg (by simp [htA])]
  rw [if_neg (by simp [htS, htE])]
  simp only [Option.getD_some]
  rw [hps, hpe]
  dsimp only
  rw [if_neg hord]

/-- **C3.** On a validated request: a cache record under the request's
fingerprint that is younger than `CACHE_EXPIRY = 3600` seconds is returned
as-is — no upstream call, no pacing delay, cache unchanged; otherwise
(no record, or a stale one) the full month loop runs, and when it
succeeds, a record holding the transformed result with the current
timestamp is stored under the fingerprint, overwriting any prior record. -/
theorem claim_C3
    (env_app_id : Option String) (http : UReq → Except String UResponse) (now : Nat)
    (sStr eStr aStr : String) (symbols base app_id : Option String) (cache : Cache)
    (hA : pyOr app_id env_app_id = some aStr) (haT : aStr ≠ "")
    (hsT : sStr ≠ "") (heT : eStr ≠ "")
    (sD eD : Date) (hps : parseDate sStr = some sD) (hpe : parseDate eStr = some eD)
    (hord : ¬ dateLt eD sD) :
    (∀ entry : CacheEntry,
      cache (cache_key sStr eStr symbols base aStr) = some entry →
      now - entry.timestamp < CACHE_EXPIRY →
      exchange_rates env_app_id http now (some sStr) (some eStr) symbols base app_id cache
        = (.ok entry.data, cache, [])) ∧
    (cacheLookup cache (cache_key sStr eStr symbols base aStr) now = none →
      ∀ (evs : List Ev) (rates : RatesMap),
        loopMonths http aStr symbols base sD eD (get_months_between_dates sD eD) 0 []
          = (evs, .success rates) →
        exchange_rates env_app_id http now (some sStr) (some eStr) symbols base app_id cache
          = (.ok (transform_rates_format rates),
             fun k => if k = cache_key sStr eStr symbols base aStr
               then some ⟨transform_rates_format rates, now⟩ else cache k,
             evs)) := by
  constructor
  · intro entry hentry hfresh
    rw [exchange_rates_validated env_app_id http now sStr eStr aStr symbols base app_id
      cache hA haT hsT heT sD eD hps hpe hord]
    have hl : cacheLookup cache (cache_key sStr eStr symbols base aStr) now
        = some entry.data := by
      unfold cacheLookup
      rw [hentry]
      dsimp only
      rw [if_pos hfresh]
    rw [hl]
  · intro hmiss evs rates hloop
    rw [exchange_rates_validated env_app_id http now sStr eStr aStr symbols base app_id
      cache hA haT hsT heT sD eD hps hpe hord]
    rw [hmiss, hloop]

/-- Witness oracle: every upstream call succeeds with a one-day series. -/
def httpW : UReq → Except String UResponse :=
  fun _ => .ok ⟨200, "ok", .ok ⟨some "USD", some [("2023-01-15", [("EUR", 2)])]⟩⟩

/-- Witness cache holding a fresh record for the witness fingerprint. -/
def cacheHitW : Cache :=
  fun k => if k = "2023-01-15_2023-01-16_None_None_k" then
    some ⟨[⟨"2023-01-15", 3, "EUR"⟩], 500⟩ else none

/-- Witness cache with no records. -/
def emptyCacheW : Cache := fun _ => none

/-- Witness for C3: at `now = 1000`, a record created at `500` is fresh
and is served without any upstream traffic. -/
theorem claim_C3_witness :
    exchange_rates none httpW 1000 (some "2023-01-15") (some "2023-01-16")
        none none (some "k") cacheHitW
      = (.ok [⟨"2023-01-15", 3, "EUR"⟩], cacheHitW, []) :=
  (claim_C3 none httpW 1000 "2023-01-15" "2023-01-16" "k" none none (some "k") cacheHitW
      rfl (by decide) (by decide) (by decide) ⟨2023, 1, 15⟩ ⟨2023, 1, 16⟩
      (by decide) (by decide) (by decide)).1
    ⟨[⟨"2023-01-15", 3, "EUR"⟩], 500⟩ (by decide) (by decide)

/-- **C4.** On a validated cache miss, if every month before `ym` succeeds
and the upstream call for `ym` returns a non-success status, the handler
stops at `ym`: the response is the upstream's status code with a message
embedding that code and the response body, the cache is unchanged, and
the emitted trace covers exactly the months up to and including `ym`
(`pre.length + 1` calls — the later months are never requested). -/
theorem claim_C4
    (env_app_id : Option String) (http : UReq → Except String UResponse) (now : Nat)
    (sStr eStr aStr : String) (symbols base app_id : Option String) (cache : Cache)
    (hA : pyOr app_id env_app_id = some aStr) (haT : aStr ≠ "")
    (hsT : sStr ≠ "") (heT : eStr ≠ "")
    (sD eD : Date) (hps : parseDate sStr = some sD) (hpe : parseDate eStr = some eD)
    (hord : ¬ dateLt eD sD)
    (hmiss : cacheLookup cache (cache_key sStr eStr symbols base aStr) now = none)
    (pre : List (Nat × Nat)) (ym : Nat × Nat) (post : List (Nat × Nat))
    (hsplit : get_months_between_dates sD eD = pre ++ ym :: post)
    (hpre : ∀ m ∈ pre, okRespB (http (mkReq aStr symbols base sD eD m)) = true)
    (resp : UResponse)
    (hfail : http (mkReq aStr symbols base sD eD ym) = .ok resp)
    (hst : resp.status_code ≠ 200) :
    exchange_rates env_app_id http now (some sStr) (some eStr) symbols base app_id cache
      = (.err (apiErrorMsg resp.status_code resp.text) resp.status_code, cache,
         monthTrace aStr symbols base sD eD (pre ++ [ym]) 0) ∧
    (monthTrace aStr symbols base sD eD (pre ++ [ym]) 0).countP Ev.isCall
      = pre.length + 1 := by
  constructor
  · obtain ⟨acc2, hloop⟩ :=
      loopMonths_prefix http aStr symbols base sD eD pre (ym :: post) 0 [] hpre
    rw [exchange_rates_validated env_app_id http now sStr eStr aStr symbols base app_id
      cache hA haT hsT heT sD eD hps hpe hord]
    rw [hmiss, hsplit, hloop,
      loopMonths_cons_status http aStr symbols base sD eD ym post (0 + pre.length)
        acc2 resp hfail hst]
    dsimp only
    rw [monthTrace_append aStr symbols base sD eD pre [ym] 0]
    simp [monthTrace]
  · rw [monthTrace_countP_call]
    simp

/-- Witness oracle for C4: February requests are refused with HTTP 429,
other months succeed. -/
def httpFailW : UReq → Except String UResponse :=
  fun r =>
    if r.month_start.month = 2 then .ok ⟨429, "Too Many Requests", .error "boom"⟩
    else .ok ⟨200, "ok", .ok ⟨none, none⟩⟩

/-- Witness for C4: of the three months of `2023-01-15 .. 2023-03-10`,
the second fails with 429; the trace stops there with two calls. -/
theorem claim_C4_witness :
    exchange_rates none httpFailW 0 (some "2023-01-15") (some "2023-03-10")
        none none (some "k") emptyCacheW
      = (.err (apiErrorMsg 429 "Too Many Requests") 429, emptyCacheW,
         monthTrace "k" none none ⟨2023, 1, 15⟩ ⟨2023, 3, 10⟩ [(2023, 1), (2023, 2)] 0) ∧
    (monthTrace "k" none none ⟨2023, 1, 15⟩ ⟨2023, 3, 10⟩
        [(2023, 1), (2023, 2)] 0).countP Ev.isCall = 1 + 1 :=
  claim_C4 none httpFailW 0 "2023-01-15" "2023-03-10" "k" none none (some "k") emptyCacheW
    rfl (by decide) (by decide) (by decide) ⟨2023, 1, 15⟩ ⟨2023, 3, 10⟩
    (by decide) (by decide) (by decide) rfl
    [(2023, 1)] (2023, 2) [(2023, 3)] (by decide) (by decide)
    ⟨429, "Too Many Requests", .error "boom"⟩ (by decide) (by decide)

/-- **C9.** Exceptions raised while processing a validated cache miss —
a transport failure of `requests.get` or a `response.json()` decode
failure (the two raising operations of the loop) — are caught and mapped
to the 500 JSON error response whose message embeds the exception text,
with a constant details field; the cache is unchanged and the model
returns a response (it has nowhere to propagate an exception by
construction). -/
theorem claim_C9
    (env_app_id : Option String) (http : UReq → Except String UResponse) (now : Nat)
    (sStr eStr aStr : String) (symbols base app_id : Option String) (cache : Cache)
    (hA : pyOr app_id env_app_id = some aStr) (haT : aStr ≠ "")
    (hsT : sStr ≠ "") (heT : eStr ≠ "")
    (sD eD : Date) (hps : parseDate sStr = some sD) (hpe : parseDate eStr = some eD)
    (hord : ¬ dateLt eD sD)
    (hmiss : cacheLookup cache (cache_key sStr eStr symbols base aStr) now = none)
    (pre : List (Nat × Nat)) (ym : Nat × Nat) (post : List (Nat × Nat))
    (hsplit : get_months_between_dates sD eD = pre ++ ym :: post)
    (hpre : ∀ m ∈ pre, okRespB (http (mkReq aStr symbols base sD eD m)) = true)
    (msg : String)
    (hfail : http (mkReq aStr symbols base sD eD ym) = .error msg
      ∨ ∃ resp : UResponse, http (mkReq aStr symbols base sD eD ym) = .ok resp
          ∧ resp.status_code = 200 ∧ resp.json = .error msg) :
    exchange_rates env_app_id http now (some sStr) (some eStr) symbols base app_id cache
      = (.err500 ("Error processing request: " ++ msg)
           "Check server logs for more information", cache,
         monthTrace aStr symbols base sD eD (pre ++ [ym]) 0) := by
  obtain ⟨acc2, hloop⟩ :=
    loopMonths_prefix http aStr symbols base sD eD pre (ym :: post) 0 [] hpre
  rw [exchange_rates_validated env_app_id http now sStr eStr aStr symbols base app_id
    cache hA haT hsT heT sD eD hps hpe hord]
  rw [hmiss, hsplit, hloop]
  rcases hfail with htr | ⟨resp, hok, hst, hjs⟩
  · rw [loopMonths_cons_transport http aStr symbols base sD eD ym post (0 + pre.length)
      acc2 msg htr]
    dsimp only
    rw [monthTrace_append aStr symbols base sD eD pre [ym] 0]
    simp [monthTrace]
  · rw [loopMonths_cons_jsonfail http aStr symbols base sD eD ym post (0 + pre.length)
      acc2 resp msg hok hst hjs]
    dsimp only
    rw [monthTrace_append aStr symbols base sD eD pre [ym] 0]
    simp [monthTrace]

/-- Witness oracle for C9: the February call raises a transport error. -/
def httpExcW : UReq → Except String UResponse :=
  fun r =>
    if r.month_start.month = 2 then .error "ConnectionError"
    else .ok ⟨200, "ok", .ok ⟨none, none⟩⟩

/-- Witness for C9: the transport failure on the second of three months is
mapped to the 500 response embedding the exception text. -/
theorem claim_C9_witness :
    exchange_rates none httpExcW 0 (some "2023-01-15") (some "2023-03-10")
        none none (some "k") emptyCacheW
      = (.err500 ("Error processing request: " ++ "ConnectionError")
           "Check server logs for more information", emptyCacheW,
         monthTrace "k" none none ⟨2023, 1, 15⟩ ⟨2023, 3, 10⟩ [(2023, 1), (2023, 2)] 0) :=
  claim_C9 none httpExcW 0 "2023-01-15" "2023-03-10" "k" none none (some "k") emptyCacheW
    rfl (by decide) (by decide) (by decide) ⟨2023, 1, 15⟩ ⟨2023, 3, 10⟩
    (by decide) (by decide) (by decide) rfl
    [(2023, 1)] (2023, 2) [(2023, 3)] (by decide) (by decide)
    "ConnectionError" (Or.inl (by decide))

/-- **C5.** On a validated cache miss where every month's upstream call
succeeds, the emitted event trace is exactly the `N` upstream calls with
one pacing delay interspersed between consecutive calls: `N` calls,
`N - 1` delays, no delay before the first call and none after the last. -/
theorem claim_C5
    (env_app_id : Option String) (http : UReq → Except String UResponse) (now : Nat)
    (sStr eStr aStr : String) (symbols base app_id : Option String) (cache : Cache)
    (hA : pyOr app_id env_app_id = some aStr) (haT : aStr ≠ "")
    (hsT : sStr ≠ "") (heT : eStr ≠ "")
    (sD eD : Date) (hps : parseDate sStr = some sD) (hpe : parseDate eStr = some eD)
    (hord : ¬ dateLt eD sD)
    (hmiss : cacheLookup cache (cache_key sStr eStr symbols base aStr) now = none)
    (hall : ∀ m ∈ get_months_between_dates sD eD,
      okRespB (http (mkReq aStr symbols base sD eD m)) = true) :
    ∀ (res : HRes) (cache2 : Cache) (evs : List Ev),
      exchange_rates env_app_id http now (some sStr) (some eStr) symbols base app_id cache
        = (res, cache2, evs) →
      evs = List.intersperse Ev.sleep
          ((get_months_between_dates sD eD).map
            (fun m => Ev.call (mkReq aStr symbols base sD eD m))) ∧
      evs.countP Ev.isCall = (get_months_between_dates sD eD).length ∧
      evs.countP Ev.isSleep = (get_months_between_dates sD eD).length - 1 := by
  obtain ⟨acc2, hloop⟩ :=
    loopMonths_prefix http aStr symbols base sD eD
      (get_months_between_dates sD eD) [] 0 [] hall
  rw [List.append_nil] at hloop
  simp only [loopMonths, List.append_nil] at hloop
  intro res cache2 evs heq
  rw [exchange_rates_validated env_app_id http now sStr eStr aStr symbols base app_id
    cache hA haT hsT heT sD eD hps hpe hord] at heq
  rw [hmiss, hloop] at heq
  dsimp only at heq
  rw [Prod.mk.injEq, Prod.mk.injEq] at heq
  obtain ⟨-, -, hevs⟩ := heq
  rw [← hevs]
  refine ⟨?_, ?_, ?_⟩
  · exact monthTrace_eq_intersperse aStr symbols base sD eD _
  · exact monthTrace_countP_call aStr symbols base sD eD _ 0
  · rw [monthTrace_countP_sleep aStr symbols base sD eD _ 0]
    simp

/-- Witness for C5: two months, all calls succeed, so the trace is
`[call, sleep, call]`. -/
theorem claim_C5_witness :
    (exchange_rates none httpW 0 (some "2023-01-15") (some "2023-02-10")
        none none (some "k") emptyCacheW).2.2
      = List.intersperse Ev.sleep
          ((get_months_between_dates ⟨2023, 1, 15⟩ ⟨2023, 2, 10⟩).map
            (fun m => Ev.call (mkReq "k" none none ⟨2023, 1, 15⟩ ⟨2023, 2, 10⟩ m))) ∧
    ((exchange_rates none httpW 0 (some "2023-01-15") (some "2023-02-10")
        none none (some "k") emptyCacheW).2.2).countP Ev.isCall
      = (get_months_between_dates ⟨2023, 1, 15⟩ ⟨2023, 2, 10⟩).length ∧
    ((exchange_rates none httpW 0 (some "2023-01-15") (some "2023-02-10")
        none none (some "k") emptyCacheW).2.2).countP Ev.isSleep
      = (get_months_between_dates ⟨2023, 1, 15⟩ ⟨2023, 2, 10⟩).length - 1 :=
  claim_C5 none httpW 0 "2023-01-15" "2023-02-10" "k" none none (some "k") emptyCacheW
    rfl (by decide) (by decide) (by decide) ⟨2023, 1, 15⟩ ⟨2023, 2, 10⟩
    (by decide) (by decide) (by decide) rfl (by decide)
    (exchange_rates none httpW 0 (some "2023-01-15") (some "2023-02-10")
      none none (some "k") emptyCacheW).1
    (exchange_rates none httpW 0 (some "2023-01-15") (some "2023-02-10")
      none none (some "k") emptyCacheW).2.1
    (exchange_rates none httpW 0 (some "2023-01-15") (some "2023-02-10")
      none none (some "k") emptyCacheW).2.2
    rfl

/-- **C7.** Whenever a request fails validation — missing credential
(after the environment fallback), a missing or empty date parameter, a
date that does not parse as `%Y-%m-%d`, or `start_date > end_date` — the
handler returns a 400 error at once: the result holds for every cache
(the cache is not consulted), the cache is returned unchanged, and the
event trace is empty (no upstream call, no pacing delay). -/
theorem claim_C7
    (env_app_id : Option String) (http : UReq → Except String UResponse) (now : Nat)
    (start_date end_date symbols base app_id : Option String)
    (hbad :
      truthy (pyOr app_id env_app_id) = false
      ∨ (truthy (pyOr app_id env_app_id) = true
          ∧ (truthy start_date = false ∨ truthy end_date = false))
      ∨ (truthy (pyOr app_id env_app_id) = true ∧ truthy start_date = true
          ∧ truthy end_date = true
          ∧ (validate_date (start_date.getD "") = false
              ∨ validate_date (end_date.getD "") = false))
      ∨ (truthy (pyOr app_id env_app_id) = true ∧ truthy start_date = true
          ∧ truthy end_date = true
          ∧ ∃ sD eD : Date, parseDate (start_date.getD "") = some sD
              ∧ parseDate (end_date.getD "") = some eD ∧ dateLt eD sD)) :
    ∃ msg : String, ∀ cache : Cache,
      exchange_rates env_app_id http now start_date end_date symbols base app_id cache
        = (.err msg 400, cache, []) := by
  rcases hbad with h1 | ⟨h1, h2⟩ | ⟨h1, h2, h3, h4⟩ | ⟨h1, h2, h3, sD, eD, hps, hpe, hlt⟩
  · refine ⟨"API key (app_id) is required", fun cache => ?_⟩
    unfold exchange_rates
    rw [if_pos (by simp [h1])]
  · refine ⟨"start_date and end_date are required", fun cache => ?_⟩
    unfold exchange_rates
    rw [if_neg (by simp [h1]), if_pos (by rcases h2 with h2 | h2 <;> simp [h2])]
  · refine ⟨"Invalid date format. Use YYYY-MM-DD", fun cache => ?_⟩
    unfold exchange_rates
    rw [if_neg (by simp [h1]), if_neg (by simp [h2, h3])]
    rcases h4 with h4 | h4
    · have hnone : parseDate (start_date.getD "") = none := by
        cases hx : parseDate (start_date.getD "") with
        | none => rfl
        | some d => rw [validate_date, hx] at h4; simp at h4
      cases hy : parseDate (end_date.getD "") with
      | none => rw [hnone]
      | some d => rw [hnone]
    · have hnone : parseDate (end_date.getD "") = none := by
        cases hx : parseDate (end_date.getD "") with
        | none => rfl
        | some d => rw [validate_date, hx] at h4; simp at h4
      cases hy : parseDate (start_date.getD "") with
      | none => rw [hnone]
      | some d => rw [hnone]
  · refine ⟨"start_date must be before end_date", fun cache => ?_⟩
    unfold exchange_rates
    rw [if_neg (by simp [h1]), if_neg (by simp [h2, h3]), hps, hpe]
    dsimp only
    rw [if_pos hlt]

/-- Witness for C7: `start_date = 2023-01-15` after `end_date =
2023-01-10` is rejected for any cache with no trace. -/
theorem claim_C7_witness :
    ∃ msg : String, ∀ cache : Cache,
      exchange_rates none httpW 0 (some "2023-01-15") (some "2023-01-10")
          none none (some "k") cache
        = (.err msg 400, cache, []) :=
  claim_C7 none httpW 0 (some "2023-01-15") (some "2023-01-10") none none (some "k")
    (Or.inr (Or.inr (Or.inr ⟨by decide, by decide, by decide,
      ⟨2023, 1, 15⟩, ⟨2023, 1, 10⟩, by decide, by decide, by decide⟩)))
